import Mathlib

/-!
# A one-shot promise / future pair (`my_promise.h`, namespace `mpcs`)

Shallow embedding of `SharedState<T>`, `MyPromise<T>` and `MyFuture<T>`.

* `T` is the value type, `E` the type of exception objects an `exception_ptr`
  refers to (the failure records).
* Shared cells live in a `Heap`; a `shared_ptr<SharedState<T>>` is an address.
  Reference counts are not modelled, a cell is never freed.
* `std::mutex` is a held/free flag, `std::condition_variable` is the number of
  threads blocked in `wait` that have not been notified yet.
* Every member function is given twice: as one call run to completion by a
  single thread (`SharedState.set_value`, `SharedState.get`, ...), and cut into
  atomic steps for one producer thread and one consumer thread that interleave
  (`Sys.producerStep`, `Sys.consumerStep`).  Both are built from the same
  primitives, and `get_run_agrees` relates them.
-/

namespace mpcs

/-! ## Data model -/

/-- Alternatives of `std::variant<unique_ptr<T>, exception_ptr>` (line 53):
a non-null `unique_ptr<T>` owning `pointee`, or an `exception_ptr` that refers
to the exception object `exc`. -/
inductive Variant (T E : Type) where
  | ptr (pointee : T)
  | exc (exc : E)
deriving DecidableEq, Repr

/-- The struct `SharedState<T>` (lines 46-56).  `FutureValue = none` is the empty
`std::optional`; `mtx = true` means the mutex is held; `cv` counts the threads
blocked on the condition variable and not yet notified. -/
structure SharedState (T E : Type) where
  FutureValue : Option (Variant T E)
  mtx : Bool
  cv : Nat
deriving DecidableEq, Repr

/-- How a call ends: it completes, either returning a value (`Except.ok`) or
with an exception propagating to the caller (`Except.error`), or the calling
thread stays blocked and the call never completes. -/
inductive Completion (E α : Type) where
  | completed (r : Except E α)
  | blocked

/-- Value-initialised cell, as `make_shared<SharedState<T>>()` builds it
(line 90): empty optional, free mutex, no waiter. -/
def SharedState.fresh {T E : Type} : SharedState T E :=
  { FutureValue := none, mtx := false, cv := 0 }

/-- Acquiring `mtx` (constructor of `lock_guard` / `unique_lock`, lines 64, 93,
100): succeeds only on a free mutex; `none` means the caller has to wait. -/
def SharedState.lock {T E : Type} (s : SharedState T E) : Option (SharedState T E) :=
  if s.mtx then none else some { s with mtx := true }

/-- Releasing `mtx` (destructor of `lock_guard` / `unique_lock`). -/
def SharedState.unlock {T E : Type} (s : SharedState T E) : SharedState T E :=
  { s with mtx := false }

/-- Assignment `sharedState->FutureValue = variant(...)` (lines 95, 102). -/
def SharedState.assign {T E : Type} (s : SharedState T E) (x : Variant T E) :
    SharedState T E :=
  { s with FutureValue := some x }

/-- Call `cv.notify_one()` (lines 96, 103): one blocked thread, if there is one,
stops being blocked. -/
def SharedState.notify_one {T E : Type} (s : SharedState T E) : SharedState T E :=
  { s with cv := s.cv - 1 }

/-- One round of `cv.wait(lck)` when the predicate is false (line 65): the mutex
is released and the caller registers as blocked, atomically. -/
def SharedState.wait {T E : Type} (s : SharedState T E) : SharedState T E :=
  { s with mtx := false, cv := s.cv + 1 }

/-- The `std::visit` of lines 74-77 on the stored variant: a `unique_ptr<T>`
yields its pointee, moved out, and the pointee is left in the moved-from state
`moved v`; an `exception_ptr` is rethrown and stays as it is. The first
component is what `get` hands to its caller, the second what stays stored. -/
def visit {T E : Type} (moved : T → T) : Variant T E → Except E T × Variant T E
  | .ptr v => (.ok v, .ptr (moved v))
  | .exc e => (.error e, .exc e)

/-! ## Calls run to completion by one thread -/

/-- Body of `MyPromise::set_value` (lines 92-97) on the cell it points to. -/
def SharedState.set_value {T E : Type} (s : SharedState T E) (value : T) :
    Completion E Unit × SharedState T E :=
  match s.lock with
  | none => (.blocked, s)
  | some s1 => (.completed (.ok ()), ((s1.assign (.ptr value)).notify_one).unlock)

/-- Body of `MyPromise::set_exception` (lines 99-104) on the cell it points to. -/
def SharedState.set_exception {T E : Type} (s : SharedState T E) (exc : E) :
    Completion E Unit × SharedState T E :=
  match s.lock with
  | none => (.blocked, s)
  | some s1 => (.completed (.ok ()), ((s1.assign (.exc exc)).notify_one).unlock)

/-- Body of `MyFuture::get` (lines 63-78) on the cell it points to, when no
other thread runs: with an empty optional the caller releases the mutex and
stays blocked in `cv.wait`. -/
def SharedState.get {T E : Type} (moved : T → T) (s : SharedState T E) :
    Completion E T × SharedState T E :=
  match s.lock with
  | none => (.blocked, s)
  | some s1 =>
    match s1.FutureValue with
    | none => (.blocked, s1.wait)
    | some x => (.completed (visit moved x).1, (s1.assign (visit moved x).2).unlock)

/-! ## Handles and the heap of shared cells -/

/-- The cells allocated so far: `next` is the address the next `make_shared`
returns, `cells a` the cell at address `a`. -/
structure Heap (T E : Type) where
  next : Nat
  cells : Nat → SharedState T E

/-- A heap on which nothing has been allocated. -/
def Heap.empty {T E : Type} : Heap T E :=
  { next := 0, cells := fun _ => SharedState.fresh }

/-- Allocation `make_shared<SharedState<T>>()`: a new address and a
value-initialised cell there. -/
def Heap.make_shared {T E : Type} (h : Heap T E) : Nat × Heap T E :=
  (h.next, { next := h.next + 1, cells := Function.update h.cells h.next SharedState.fresh })

/-- Run a member function body on the cell at address `a`. -/
def Heap.on {T E α : Type} (h : Heap T E) (a : Nat)
    (body : SharedState T E → Completion E α × SharedState T E) :
    Completion E α × Heap T E :=
  ((body (h.cells a)).1, { h with cells := Function.update h.cells a (body (h.cells a)).2 })

/-- The class `MyFuture<T>` (lines 58-84): its only member is the pointer
`sharedState`. -/
structure MyFuture where
  sharedState : Nat
deriving DecidableEq, Repr

/-- The class `MyPromise<T>` (lines 86-111): its only member is the pointer
`sharedState`. -/
structure MyPromise where
  sharedState : Nat
deriving DecidableEq, Repr

/-- Constructor `MyPromise()` (line 90). -/
def MyPromise.ctor {T E : Type} (h : Heap T E) : MyPromise × Heap T E :=
  ({ sharedState := (h.make_shared).1 }, (h.make_shared).2)

/-- Member `MyPromise::set_value` (lines 92-97). -/
def MyPromise.set_value {T E : Type} (p : MyPromise) (value : T) (h : Heap T E) :
    Completion E Unit × Heap T E :=
  h.on p.sharedState (fun s => s.set_value value)

/-- Member `MyPromise::set_exception` (lines 99-104). -/
def MyPromise.set_exception {T E : Type} (p : MyPromise) (exc : E) (h : Heap T E) :
    Completion E Unit × Heap T E :=
  h.on p.sharedState (fun s => s.set_exception exc)

/-- Member `MyPromise::get_future` (lines 106-108): the future is built from
the same pointer (private constructor, lines 81-82); no cell is touched. -/
def MyPromise.get_future {T E : Type} (p : MyPromise) (h : Heap T E) :
    MyFuture × Heap T E :=
  ({ sharedState := p.sharedState }, h)

/-- Member `MyFuture::get` (lines 63-78). -/
def MyFuture.get {T E : Type} (moved : T → T) (f : MyFuture) (h : Heap T E) :
    Completion E T × Heap T E :=
  h.on f.sharedState (fun s => s.get moved)

/-- One fulfilling call of the producer. -/
inductive Op (T E : Type) where
  | set_value (value : T)
  | set_exception (exc : E)
deriving DecidableEq, Repr

/-- What the call assigns to `FutureValue`. -/
def Op.stored {T E : Type} : Op T E → Variant T E
  | .set_value v => .ptr v
  | .set_exception e => .exc e

/-- What a consumer is to get from the call: the value returned, or the
exception raised. -/
def Op.outcome {T E : Type} : Op T E → Except E T
  | .set_value v => .ok v
  | .set_exception e => .error e

/-- Make the call `op` on the promise `p`. -/
def MyPromise.call {T E : Type} (p : MyPromise) (op : Op T E) (h : Heap T E) :
    Completion E Unit × Heap T E :=
  match op with
  | .set_value v => p.set_value v h
  | .set_exception e => p.set_exception e h

/-- Make the calls `ops` on the promise `p` one after the other; the
completions are listed in call order. -/
def MyPromise.calls {T E : Type} (p : MyPromise) :
    List (Op T E) → Heap T E → List (Completion E Unit) × Heap T E
  | [], h => ([], h)
  | op :: ops, h =>
    ((p.call op h).1 :: (MyPromise.calls p ops (p.call op h).2).1,
      (MyPromise.calls p ops (p.call op h).2).2)

/-! ## One producer thread and one consumer thread, step by step -/

/-- Where the producer stands inside the call it is making: before the
`lock_guard` (lines 93, 100), before the assignment (95, 102), before
`notify_one` (96, 103), before the `lock_guard` is destroyed (97, 104). -/
inductive PStage where
  | entry
  | assign
  | notify
  | leave
deriving DecidableEq, Repr

/-- The producer thread: the calls it has still to make, the first of them
being in progress at `stage`. -/
structure Producer (T E : Type) where
  stage : PStage
  todo : List (Op T E)

/-- The consumer thread, making one call of `get`: before the `unique_lock`
(line 64); holding the mutex and about to test the predicate (line 66);
predicate found false, mutex still held, about to call `cv.wait(lck)`
(line 65); blocked inside `cv.wait(lck)` with the mutex released; result
computed by the visit (lines 74-77) with the `unique_lock` still to be
destroyed; call over. -/
inductive Consumer (T E : Type) where
  | entry
  | test
  | wait
  | asleep
  | leaving (r : Except E T)
  | done (r : Except E T)

/-- Two threads around one shared cell. -/
structure Sys (T E : Type) where
  cell : SharedState T E
  prod : Producer T E
  cons : Consumer T E

/-- The call of `get` has its result: it has completed or is on its way out. -/
def Consumer.completed {T E : Type} : Consumer T E → Bool
  | .leaving _ => true
  | .done _ => true
  | _ => false

/-- The call of `get` is over, the caller has its result. -/
def Consumer.isDone {T E : Type} : Consumer T E → Bool
  | .done _ => true
  | _ => false

/-- The consumer is inside its critical section. -/
def Consumer.holdsLock {T E : Type} : Consumer T E → Bool
  | .test => true
  | .wait => true
  | .leaving _ => true
  | _ => false

/-- The producer is inside the critical section of a call. -/
def Producer.holdsLock {T E : Type} (p : Producer T E) : Bool :=
  match p.todo, p.stage with
  | [], _ => false
  | _ :: _, .entry => false
  | _ :: _, _ => true

/-- One atomic step of the producer; `none` when it cannot move (it waits for
the mutex, or it has no call left). -/
def Sys.producerStep {T E : Type} (s : Sys T E) : Option (Sys T E) :=
  match s.prod.todo with
  | [] => none
  | op :: rest =>
    match s.prod.stage with
    | .entry =>
      match s.cell.lock with
      | none => none
      | some c => some { s with cell := c, prod := { s.prod with stage := .assign } }
    | .assign =>
      some { s with cell := s.cell.assign op.stored, prod := { s.prod with stage := .notify } }
    | .notify =>
      some { s with cell := s.cell.notify_one, prod := { s.prod with stage := .leave } }
    | .leave =>
      some { s with cell := s.cell.unlock, prod := { stage := .entry, todo := rest } }

/-- One atomic step of the consumer; `none` when it cannot move (it waits for
the mutex, it is blocked on the condition variable, or its call is over).
The call `cv.wait(lck, pred)` of lines 65-66 is the loop
`while (!pred()) wait(lck)`: testing the predicate is one step and calling
`wait(lck)` is the next one, and nothing but the mutex keeps other threads
from moving in between. A thread blocked in `wait(lck)` leaves it once it is
no longer counted in `cv` and the mutex is free, and then tests the predicate
again. -/
def Sys.consumerStep {T E : Type} (moved : T → T) (s : Sys T E) : Option (Sys T E) :=
  match s.cons with
  | .entry =>
    match s.cell.lock with
    | none => none
    | some c => some { s with cell := c, cons := .test }
  | .test =>
    match s.cell.FutureValue with
    | none => some { s with cons := .wait }
    | some x =>
      some { s with cell := s.cell.assign (visit moved x).2, cons := .leaving (visit moved x).1 }
  | .wait => some { s with cell := s.cell.wait, cons := .asleep }
  | .asleep =>
    if s.cell.cv = 0 then
      match s.cell.lock with
      | none => none
      | some c => some { s with cell := c, cons := .test }
    else none
  | .leaving r => some { s with cell := s.cell.unlock, cons := .done r }
  | .done _ => none

/-- A spurious wakeup: a thread blocked on the condition variable stops being
blocked although nobody notified it. -/
def Sys.spuriousStep {T E : Type} (s : Sys T E) : Option (Sys T E) :=
  match s.cons with
  | .asleep => if s.cell.cv = 0 then none else some { s with cell := s.cell.notify_one }
  | _ => none

/-- Who moves next. -/
inductive Action where
  | producer
  | consumer
  | spurious
deriving DecidableEq, Repr

/-- One step of the system. -/
def Sys.step {T E : Type} (moved : T → T) (a : Action) (s : Sys T E) : Option (Sys T E) :=
  match a with
  | .producer => s.producerStep
  | .consumer => s.consumerStep moved
  | .spurious => s.spuriousStep

/-- Follow a schedule; a scheduled thread that cannot move is passed over. -/
def Sys.run {T E : Type} (moved : T → T) : List Action → Sys T E → Sys T E
  | [], s => s
  | a :: as, s => Sys.run moved as ((s.step moved a).getD s)

/-- Initial state: a promise just constructed, a producer that will make the
calls `ops` on it, a consumer that calls `get` on its future. -/
def Sys.start {T E : Type} (ops : List (Op T E)) : Sys T E :=
  { cell := SharedState.fresh, prod := { stage := .entry, todo := ops }, cons := .entry }

/-! ## Invariant and progress measure of the two-thread system -/

/-- What holds in every state the two threads can reach: the mutex is held
exactly when one thread is inside its critical section, never both; at most
the consumer is counted as blocked on the condition variable; a consumer that
is blocked and not notified faces an empty slot, or a producer that has just
assigned and is about to notify; a producer past its assignment, and a
consumer that has its result, face a non-empty slot; a consumer that found
the predicate false and is about to call `wait` faces an empty slot. -/
def Sys.Inv {T E : Type} (s : Sys T E) : Prop :=
  s.cell.mtx = (s.prod.holdsLock || s.cons.holdsLock) ∧
  ¬ (s.prod.holdsLock = true ∧ s.cons.holdsLock = true) ∧
  s.cell.cv ≤ 1 ∧
  (s.cell.cv ≠ 0 → s.cons = .asleep) ∧
  (s.cell.cv ≠ 0 → s.cell.FutureValue ≠ none → s.prod.holdsLock = true ∧ s.prod.stage = .notify) ∧
  (s.prod.holdsLock = true → s.prod.stage ≠ .assign → s.cell.FutureValue ≠ none) ∧
  (s.cons.completed = true → s.cell.FutureValue ≠ none) ∧
  (s.cons = .wait → s.cell.FutureValue = none)

/-- The producer has a fulfilment ahead as long as the slot is empty: it has a
call left and has not yet assigned in it. -/
def Sys.Live {T E : Type} (s : Sys T E) : Prop :=
  s.cell.FutureValue = none →
    s.prod.todo ≠ [] ∧ (s.prod.stage = .entry ∨ s.prod.stage = .assign)

/-- Number of steps the producer has still to make. -/
def Producer.remaining {T E : Type} (p : Producer T E) : Nat :=
  match p.todo, p.stage with
  | [], _ => 0
  | _ :: rest, .entry => 4 * rest.length + 4
  | _ :: rest, .assign => 4 * rest.length + 3
  | _ :: rest, .notify => 4 * rest.length + 2
  | _ :: rest, .leave => 4 * rest.length + 1

/-- Bound on the number of steps the consumer has still to make. -/
def Sys.rank {T E : Type} (s : Sys T E) : Nat :=
  match s.cons, s.cell.FutureValue, s.cell.cv with
  | .entry, none, _ => 6
  | .entry, some _, _ => 3
  | .test, none, _ => 5
  | .test, some _, _ => 2
  | .wait, _, _ => 4
  | .asleep, none, n => if n = 0 then 6 else 3
  | .asleep, some _, _ => 3
  | .leaving _, _, _ => 1
  | .done _, _, _ => 0

/-- Bound on the number of steps left until both threads are through. -/
def Sys.mu {T E : Type} (s : Sys T E) : Nat :=
  s.prod.remaining + s.rank

/-- Everything in the system comes from the calls `ops` of the producer: the
calls it has left are among them, what the slot holds before `get` has visited
it was stored by one of them, and the result of `get` is the outcome of one of
them. -/
def Sys.From {T E : Type} (ops : List (Op T E)) (s : Sys T E) : Prop :=
  (∀ op ∈ s.prod.todo, op ∈ ops) ∧
  (s.cons.completed = false → ∀ x, s.cell.FutureValue = some x → ∃ op ∈ ops, x = op.stored) ∧
  (∀ r, s.cons = .leaving r ∨ s.cons = .done r → ∃ op ∈ ops, r = op.outcome)

/-! ## Client code of the scenarios -/

/-- Scenario C, the declaration `Promise<int> p;` on an empty heap. -/
def scenarioC_promise : MyPromise × Heap Nat String :=
  MyPromise.ctor Heap.empty

/-- Scenario C, the first call `p.set_value(1)`. -/
def scenarioC_first : Completion String Unit × Heap Nat String :=
  scenarioC_promise.1.set_value 1 scenarioC_promise.2

/-- Scenario C, the second call `p.set_value(2)`. -/
def scenarioC_second : Completion String Unit × Heap Nat String :=
  scenarioC_promise.1.set_value 2 scenarioC_first.2

/-- Scenario C, the final `p.get_future().get()`; moving from an `int` leaves
it as it is. -/
def scenarioC_get : Completion String Nat × Heap Nat String :=
  MyFuture.get id (scenarioC_promise.1.get_future scenarioC_second.2).1
    (scenarioC_promise.1.get_future scenarioC_second.2).2

/-! ## Lemmas on single calls -/

theorem lock_free {T E : Type} (s : SharedState T E) (h : s.mtx = false) :
    s.lock = some { s with mtx := true } := by
  simp [SharedState.lock, h]

theorem lock_held {T E : Type} (s : SharedState T E) (h : s.mtx = true) :
    s.lock = none := by
  simp [SharedState.lock, h]

theorem set_value_free {T E : Type} (s : SharedState T E) (v : T) (h : s.mtx = false) :
    s.set_value v =
      (.completed (.ok ()), { FutureValue := some (.ptr v), mtx := false, cv := s.cv - 1 }) := by
  simp [SharedState.set_value, lock_free s h, SharedState.assign, SharedState.notify_one,
    SharedState.unlock]

theorem set_exception_free {T E : Type} (s : SharedState T E) (e : E) (h : s.mtx = false) :
    s.set_exception e =
      (.completed (.ok ()), { FutureValue := some (.exc e), mtx := false, cv := s.cv - 1 }) := by
  simp [SharedState.set_exception, lock_free s h, SharedState.assign, SharedState.notify_one,
    SharedState.unlock]

theorem get_free_some {T E : Type} (moved : T → T) (s : SharedState T E) (x : Variant T E)
    (h : s.mtx = false) (hx : s.FutureValue = some x) :
    s.get moved =
      (.completed (visit moved x).1,
        { FutureValue := some (visit moved x).2, mtx := false, cv := s.cv }) := by
  simp [SharedState.get, lock_free s h, hx, SharedState.assign, SharedState.unlock]

theorem call_free {T E : Type} (p : MyPromise) (op : Op T E) (h : Heap T E)
    (hfree : (h.cells p.sharedState).mtx = false) :
    (p.call op h).1 = .completed (.ok ()) ∧
    (p.call op h).2.cells p.sharedState =
      { FutureValue := some op.stored, mtx := false, cv := (h.cells p.sharedState).cv - 1 } := by
  cases op <;>
    simp [MyPromise.call, MyPromise.set_value, MyPromise.set_exception, Heap.on,
      set_value_free _ _ hfree, set_exception_free _ _ hfree, Op.stored]

theorem calls_free {T E : Type} (p : MyPromise) (ops : List (Op T E)) :
    ∀ (h : Heap T E), (h.cells p.sharedState).mtx = false →
      ((p.calls ops h).2.cells p.sharedState).mtx = false ∧
      (p.calls ops h).1 = List.replicate ops.length (.completed (.ok ())) ∧
      ∀ hne : ops ≠ [],
        ((p.calls ops h).2.cells p.sharedState).FutureValue = some (ops.getLast hne).stored := by
  induction ops with
  | nil => intro h hfree; simp [MyPromise.calls, hfree]
  | cons op rest ih =>
    intro h hfree
    obtain ⟨h1, h2⟩ := call_free p op h hfree
    have hfree2 : ((p.call op h).2.cells p.sharedState).mtx = false := by rw [h2]
    obtain ⟨i1, i2, i3⟩ := ih (p.call op h).2 hfree2
    refine ⟨by simpa [MyPromise.calls] using i1, ?_, ?_⟩
    · simp [MyPromise.calls, h1, i2, List.replicate_succ]
    · intro _
      cases rest with
      | nil => simp [MyPromise.calls, h2]
      | cons op2 rest2 =>
        have := i3 (by simp)
        simpa [MyPromise.calls, List.getLast_cons] using this

/-! ## Round trips -/

/-- C1, value round trip: on a promise just constructed, `set_value v` completes
normally and `get` on the future then obtained from `get_future` returns `v`;
it neither raises nor blocks. -/
theorem value_round_trip {T E : Type} (moved : T → T) (h : Heap T E) (v : T) :
    let c := MyPromise.ctor h
    let w := c.1.set_value v c.2
    let f := c.1.get_future w.2
    (c.2.cells c.1.sharedState).FutureValue = none ∧
    w.1 = .completed (.ok ()) ∧
    (MyFuture.get moved f.1 f.2).1 = (.completed (.ok v) : Completion E T) := by
  intro c w f
  have hfresh : c.2.cells c.1.sharedState = SharedState.fresh := by
    simp [c, MyPromise.ctor, Heap.make_shared]
  have hw : w.2.cells c.1.sharedState =
      { FutureValue := some (.ptr v), mtx := false, cv := 0 } := by
    simp [w, MyPromise.set_value, Heap.on, hfresh, set_value_free, SharedState.fresh]
  refine ⟨by simp [hfresh, SharedState.fresh], ?_, ?_⟩
  · simp [w, MyPromise.set_value, Heap.on, hfresh, set_value_free, SharedState.fresh]
  · simp [f, MyPromise.get_future, MyFuture.get, Heap.on, hw,
      SharedState.get, SharedState.lock, visit]

/-- C2, failure round trip: on a promise just constructed, `set_exception e`
completes normally and `get` on the future then obtained from `get_future`
does not return a value: it raises, and what it raises is `e` itself. -/
theorem failure_round_trip {T E : Type} (moved : T → T) (h : Heap T E) (e : E) :
    let c := MyPromise.ctor h
    let w := c.1.set_exception e c.2
    let f := c.1.get_future w.2
    (c.2.cells c.1.sharedState).FutureValue = none ∧
    w.1 = .completed (.ok ()) ∧
    (MyFuture.get moved f.1 f.2).1 = (.completed (.error e) : Completion E T) ∧
    ∀ v : T, (MyFuture.get moved f.1 f.2).1 ≠ .completed (.ok v) := by
  intro c w f
  have hfresh : c.2.cells c.1.sharedState = SharedState.fresh := by
    simp [c, MyPromise.ctor, Heap.make_shared]
  have hw : w.2.cells c.1.sharedState =
      { FutureValue := some (.exc e), mtx := false, cv := 0 } := by
    simp [w, MyPromise.set_exception, Heap.on, hfresh, set_exception_free, SharedState.fresh]
  have hg : (MyFuture.get moved f.1 f.2).1 = (.completed (.error e) : Completion E T) := by
    simp [f, MyPromise.get_future, MyFuture.get, Heap.on, hw,
      SharedState.get, SharedState.lock, visit]
  refine ⟨by simp [hfresh, SharedState.fresh], ?_, hg, ?_⟩
  · simp [w, MyPromise.set_exception, Heap.on, hfresh, set_exception_free, SharedState.fresh]
  · intro v; rw [hg]; simp

/-! ## Fulfilling twice -/

theorem visit_stored {T E : Type} (moved : T → T) (op : Op T E) :
    (visit moved op.stored).1 = op.outcome := by
  cases op <;> rfl

/-- C3 fails on the code: in scenario C the slot holds the value 1 when
`set_value(2)` is called, and that second call completes normally as the first
did; it raises nothing. -/
theorem double_fulfillment_not_detected :
    scenarioC_first.1 = .completed (.ok ()) ∧
    (scenarioC_first.2.cells scenarioC_promise.1.sharedState).FutureValue = some (.ptr 1) ∧
    scenarioC_second.1 = .completed (.ok ()) ∧
    ∀ e : String, scenarioC_second.1 ≠ .completed (.error e) := by
  refine ⟨rfl, rfl, rfl, ?_⟩
  intro e he
  have h2 : scenarioC_second.1 = .completed (.ok ()) := rfl
  rw [h2] at he
  simp at he

/-- C3 amended: no fulfilment is ever rejected. Whatever the slot holds, a call
of `set_value` or `set_exception` made while the mutex is free completes
normally, raises nothing, and leaves the mutex free for the next call. -/
theorem fulfilment_never_rejected {T E : Type} (p : MyPromise) (h : Heap T E) (v : T) (e : E)
    (hfree : (h.cells p.sharedState).mtx = false) :
    (p.set_value v h).1 = .completed (.ok ()) ∧
    (p.set_exception e h).1 = .completed (.ok ()) ∧
    ((p.set_value v h).2.cells p.sharedState).mtx = false ∧
    ((p.set_exception e h).2.cells p.sharedState).mtx = false := by
  simp [MyPromise.set_value, MyPromise.set_exception, Heap.on, set_value_free _ _ hfree,
    set_exception_free _ _ hfree]

/-- C3 amended, at the second call of scenario C, where the slot already holds
the value 1. -/
theorem fulfilment_never_rejected_witness :
    (scenarioC_first.2.cells scenarioC_promise.1.sharedState).mtx = false ∧
    (scenarioC_first.2.cells scenarioC_promise.1.sharedState).FutureValue = some (.ptr 1) ∧
    (scenarioC_promise.1.set_value 2 scenarioC_first.2).1 = .completed (.ok ()) ∧
    (scenarioC_promise.1.set_exception "boom" scenarioC_first.2).1 = .completed (.ok ()) :=
  ⟨rfl, rfl,
    (fulfilment_never_rejected scenarioC_promise.1 scenarioC_first.2 2 "boom" rfl).1,
    (fulfilment_never_rejected scenarioC_promise.1 scenarioC_first.2 2 "boom" rfl).2.1⟩

/-- C4 fails on the code: in scenario C, after `p.set_value(1); p.set_value(2)`
the slot holds 2 and `get` on the future returns 2, not the first outcome 1. -/
theorem first_outcome_overwritten :
    (scenarioC_first.2.cells scenarioC_promise.1.sharedState).FutureValue = some (.ptr 1) ∧
    (scenarioC_second.2.cells scenarioC_promise.1.sharedState).FutureValue = some (.ptr 2) ∧
    scenarioC_get.1 = .completed (.ok 2) ∧
    scenarioC_get.1 ≠ .completed (.ok 1) := by
  refine ⟨rfl, rfl, rfl, ?_⟩
  intro he
  have h2 : scenarioC_get.1 = .completed (.ok 2) := rfl
  rw [h2] at he
  simp at he

/-- C4 amended: the later outcome replaces the stored one. Whatever outcome the
slot holds, when the mutex is free `set_value v2` leaves the slot holding the
value `v2` and `get` on the future then returns `v2`; `set_exception f2`
leaves it holding the failure `f2` and `get` then raises `f2`. -/
theorem later_outcome_replaces_first {T E : Type} (moved : T → T) (h : Heap T E)
    (p : MyPromise) (v2 : T) (f2 : E)
    (hfree : (h.cells p.sharedState).mtx = false) :
    let w := p.set_value v2 h
    let x := p.set_exception f2 h
    (w.2.cells p.sharedState).FutureValue = some (.ptr v2) ∧
    (MyFuture.get moved (p.get_future w.2).1 (p.get_future w.2).2).1 = .completed (.ok v2) ∧
    (x.2.cells p.sharedState).FutureValue = some (.exc f2) ∧
    (MyFuture.get moved (p.get_future x.2).1 (p.get_future x.2).2).1 = .completed (.error f2) := by
  intro w x
  have hw : w.2.cells p.sharedState =
      { FutureValue := some (.ptr v2), mtx := false, cv := (h.cells p.sharedState).cv - 1 } := by
    simp [w, MyPromise.set_value, Heap.on, set_value_free _ _ hfree]
  have hx : x.2.cells p.sharedState =
      { FutureValue := some (.exc f2), mtx := false, cv := (h.cells p.sharedState).cv - 1 } := by
    simp [x, MyPromise.set_exception, Heap.on, set_exception_free _ _ hfree]
  refine ⟨by rw [hw], ?_, by rw [hx], ?_⟩
  · simp [MyPromise.get_future, MyFuture.get, Heap.on, hw, SharedState.get, SharedState.lock,
      visit]
  · simp [MyPromise.get_future, MyFuture.get, Heap.on, hx, SharedState.get, SharedState.lock,
      visit]

/-- C4 amended, at the second call of scenario C: the slot holds 1, and after
`set_value(2)` it holds 2 and `get` returns 2. -/
theorem later_outcome_replaces_first_witness :
    (scenarioC_first.2.cells scenarioC_promise.1.sharedState).mtx = false ∧
    (scenarioC_first.2.cells scenarioC_promise.1.sharedState).FutureValue = some (.ptr 1) ∧
    ((scenarioC_promise.1.set_value 2 scenarioC_first.2).2.cells
      scenarioC_promise.1.sharedState).FutureValue = some (.ptr 2) ∧
    (MyFuture.get id
      (scenarioC_promise.1.get_future (scenarioC_promise.1.set_value 2 scenarioC_first.2).2).1
      (scenarioC_promise.1.get_future (scenarioC_promise.1.set_value 2 scenarioC_first.2).2).2).1
      = .completed (.ok 2) :=
  ⟨rfl, rfl,
    (later_outcome_replaces_first id scenarioC_first.2 scenarioC_promise.1 2 "boom" rfl).1,
    (later_outcome_replaces_first id scenarioC_first.2 scenarioC_promise.1 2 "boom" rfl).2.1⟩

/-- C10, last writer wins: on a promise whose mutex is free, every call of a
non-empty sequence of `set_value` / `set_exception` calls completes normally,
the slot afterwards holds what the last call of the sequence stored, whatever
the earlier calls and the earlier contents were, and `get` on the future then
returns the value of a last `set_value` and raises the failure of a last
`set_exception`. -/
theorem last_writer_wins {T E : Type} (moved : T → T) (h : Heap T E) (p : MyPromise)
    (ops : List (Op T E)) (hne : ops ≠ [])
    (hfree : (h.cells p.sharedState).mtx = false) :
    let w := p.calls ops h
    let f := p.get_future w.2
    w.1 = List.replicate ops.length (.completed (.ok ())) ∧
    (w.2.cells p.sharedState).FutureValue = some (ops.getLast hne).stored ∧
    (∀ v, ops.getLast hne = .set_value v →
      (w.2.cells p.sharedState).FutureValue = some (.ptr v) ∧
      (MyFuture.get moved f.1 f.2).1 = .completed (.ok v)) ∧
    (∀ e, ops.getLast hne = .set_exception e →
      (w.2.cells p.sharedState).FutureValue = some (.exc e) ∧
      (MyFuture.get moved f.1 f.2).1 = .completed (.error e)) := by
  intro w f
  obtain ⟨c1, c2, c3⟩ := calls_free p ops h hfree
  have hslot := c3 hne
  have hget : (MyFuture.get moved f.1 f.2).1 = .completed (ops.getLast hne).outcome := by
    simp only [f, MyPromise.get_future, MyFuture.get, Heap.on]
    rw [get_free_some moved _ _ c1 hslot, visit_stored]
  refine ⟨c2, hslot, ?_, ?_⟩
  · intro v hv
    refine ⟨by rw [hslot, hv]; rfl, by rw [hget, hv]; rfl⟩
  · intro e he
    refine ⟨by rw [hslot, he]; rfl, by rw [hget, he]; rfl⟩

/-- C10 at the calls `set_exception("boom"); set_value(1); set_value(2)` on a
promise just constructed: all three complete and `get` returns 2. -/
theorem last_writer_wins_witness :
    (scenarioC_promise.2.cells scenarioC_promise.1.sharedState).mtx = false ∧
    (scenarioC_promise.1.calls [.set_exception "boom", .set_value 1, .set_value 2]
      scenarioC_promise.2).1 = List.replicate 3 (.completed (.ok ())) ∧
    (MyFuture.get id
      (scenarioC_promise.1.get_future (scenarioC_promise.1.calls
        [.set_exception "boom", .set_value 1, .set_value 2] scenarioC_promise.2).2).1
      (scenarioC_promise.1.get_future (scenarioC_promise.1.calls
        [.set_exception "boom", .set_value 1, .set_value 2] scenarioC_promise.2).2).2).1
      = .completed (.ok 2) :=
  ⟨rfl,
    (last_writer_wins id scenarioC_promise.2 scenarioC_promise.1
      [.set_exception "boom", .set_value 1, .set_value 2] (by simp) rfl).1,
    ((last_writer_wins id scenarioC_promise.2 scenarioC_promise.1
      [.set_exception "boom", .set_value 1, .set_value 2] (by simp) rfl).2.2.1 2 rfl).2⟩

/-! ## Construction and the future -/

/-- C6, construction and future minting: the constructor allocates a cell at
an address not in use, value-initialised (empty slot, free mutex, no waiter),
and touches no other cell, and the next promise constructed gets another
cell; `get_future` yields a future pointing to that same
cell and changes nothing on the heap; so the outcome of a fulfilment made
through the promise, before `get_future` or after it, is what `get` on this
future yields. -/
theorem construction_and_future_minting {T E : Type} (moved : T → T) (h : Heap T E)
    (op : Op T E) :
    let c := MyPromise.ctor h
    (c.1.sharedState = h.next ∧ c.2.next = h.next + 1) ∧
    c.2.cells c.1.sharedState = { FutureValue := none, mtx := false, cv := 0 } ∧
    (∀ a, a ≠ c.1.sharedState → c.2.cells a = h.cells a) ∧
    (MyPromise.ctor c.2).1.sharedState ≠ c.1.sharedState ∧
    (∀ k : Heap T E, (c.1.get_future k).1.sharedState = c.1.sharedState ∧
      (c.1.get_future k).2 = k) ∧
    (let w := c.1.call op c.2
     let f := c.1.get_future w.2
     (MyFuture.get moved f.1 f.2).1 = .completed op.outcome) ∧
    (let f := c.1.get_future c.2
     let w := c.1.call op f.2
     (MyFuture.get moved f.1 w.2).1 = .completed op.outcome) := by
  intro c
  have hfresh : c.2.cells c.1.sharedState = SharedState.fresh := by
    simp [c, MyPromise.ctor, Heap.make_shared]
  have hfree : (c.2.cells c.1.sharedState).mtx = false := by rw [hfresh]; rfl
  obtain ⟨_, k2⟩ := call_free c.1 op c.2 hfree
  refine ⟨⟨rfl, rfl⟩, hfresh, ?_, ?_, fun k => ⟨rfl, rfl⟩, ?_, ?_⟩
  · intro a ha
    have ha2 : a ≠ h.next := ha
    simp [c, MyPromise.ctor, Heap.make_shared, Function.update_noteq ha2]
  · simp [c, MyPromise.ctor, Heap.make_shared]
  · intro w f
    simp only [f, w, MyPromise.get_future, MyFuture.get, Heap.on]
    rw [get_free_some moved _ op.stored (by rw [k2]) (by rw [k2]), visit_stored]
  · intro f w
    simp only [f, w, MyPromise.get_future, MyFuture.get, Heap.on]
    rw [get_free_some moved _ op.stored (by rw [k2]) (by rw [k2]), visit_stored]

/-! ## The two threads: invariant -/

theorem inv_start {T E : Type} (ops : List (Op T E)) : (Sys.start ops).Inv := by
  cases ops <;>
    simp [Sys.Inv, Sys.start, SharedState.fresh, Producer.holdsLock, Consumer.holdsLock,
      Consumer.completed]

theorem inv_producerStep {T E : Type} (s s' : Sys T E) (hi : s.Inv)
    (hs : s.producerStep = some s') : s'.Inv := by
  obtain ⟨⟨fv, mtx, cv⟩, ⟨stage, todo⟩, cons⟩ := s
  cases todo with
  | nil => simp [Sys.producerStep] at hs
  | cons op rest =>
    cases stage <;> cases mtx <;> cases cons <;>
      simp [Sys.producerStep, SharedState.lock, SharedState.assign, SharedState.notify_one,
        SharedState.unlock] at hs <;>
      subst hs <;>
      simp_all [Sys.Inv, Producer.holdsLock, Consumer.holdsLock, Consumer.completed] <;>
      (try cases rest <;> simp_all)

theorem inv_consumerStep {T E : Type} (moved : T → T) (s s' : Sys T E) (hi : s.Inv)
    (hs : s.consumerStep moved = some s') : s'.Inv := by
  obtain ⟨⟨fv, mtx, cv⟩, ⟨stage, todo⟩, cons⟩ := s
  cases cons with
  | asleep =>
    cases mtx <;> cases fv <;> cases todo <;> cases stage <;>
      simp [Sys.consumerStep, SharedState.lock] at hs <;>
      obtain ⟨hs0, hs1⟩ := hs <;>
      subst hs1 <;>
      simp_all [Sys.Inv, Producer.holdsLock, Consumer.holdsLock, Consumer.completed]
  | done r => simp [Sys.consumerStep] at hs
  | _ =>
    cases mtx <;> cases fv <;> cases todo <;> cases stage <;>
      simp [Sys.consumerStep, SharedState.lock, SharedState.assign, SharedState.wait,
        SharedState.unlock] at hs <;>
      subst hs <;>
      simp_all [Sys.Inv, Producer.holdsLock, Consumer.holdsLock, Consumer.completed]

theorem inv_spuriousStep {T E : Type} (s s' : Sys T E) (hi : s.Inv)
    (hs : s.spuriousStep = some s') : s'.Inv := by
  obtain ⟨⟨fv, mtx, cv⟩, ⟨stage, todo⟩, cons⟩ := s
  cases cons <;>
    simp [Sys.spuriousStep, SharedState.notify_one] at hs
  obtain ⟨hs0, hs⟩ := hs
  subst hs
  have hcv : cv = 1 := by
    have := hi.2.2.1
    simp at this
    omega
  subst hcv
  simp_all [Sys.Inv, Producer.holdsLock, Consumer.holdsLock, Consumer.completed]

theorem inv_step {T E : Type} (moved : T → T) (a : Action) (s s' : Sys T E) (hi : s.Inv)
    (hs : s.step moved a = some s') : s'.Inv := by
  cases a
  · exact inv_producerStep s s' hi hs
  · exact inv_consumerStep moved s s' hi hs
  · exact inv_spuriousStep s s' hi hs

theorem inv_run {T E : Type} (moved : T → T) (sched : List Action) :
    ∀ s : Sys T E, s.Inv → (Sys.run moved sched s).Inv := by
  induction sched with
  | nil => intro s hi; exact hi
  | cons a as ih =>
    intro s hi
    simp only [Sys.run]
    cases hs : s.step moved a with
    | none => simpa using ih s hi
    | some s1 => simpa using ih s1 (inv_step moved a s s1 hi hs)

/-! ## The two threads: progress -/

theorem live_start {T E : Type} (ops : List (Op T E)) (hne : ops ≠ []) :
    (Sys.start ops).Live := by
  intro _
  exact ⟨hne, Or.inl rfl⟩

theorem live_step {T E : Type} (moved : T → T) (a : Action) (s s' : Sys T E) (hi : s.Inv)
    (hl : s.Live) (hs : s.step moved a = some s') : s'.Live := by
  obtain ⟨⟨fv, mtx, cv⟩, ⟨stage, todo⟩, cons⟩ := s
  cases a with
  | producer =>
    cases todo with
    | nil => simp [Sys.step, Sys.producerStep] at hs
    | cons op rest =>
      cases stage <;> cases mtx <;>
        simp [Sys.step, Sys.producerStep, SharedState.lock, SharedState.assign,
          SharedState.notify_one, SharedState.unlock] at hs <;>
        subst hs <;>
        simp_all [Sys.Live, Sys.Inv, Producer.holdsLock]
  | consumer =>
    cases cons with
    | asleep =>
      cases mtx
      · simp [Sys.step, Sys.consumerStep, SharedState.lock] at hs
        obtain ⟨hs0, hs1⟩ := hs
        subst hs1
        simp_all [Sys.Live]
      · simp [Sys.step, Sys.consumerStep, SharedState.lock] at hs
    | done r => simp [Sys.step, Sys.consumerStep] at hs
    | _ =>
      cases mtx <;> cases fv <;>
        simp [Sys.step, Sys.consumerStep, SharedState.lock, SharedState.assign,
          SharedState.wait, SharedState.unlock] at hs <;>
        subst hs <;>
        simp_all [Sys.Live]
  | spurious =>
    cases cons <;> simp [Sys.step, Sys.spuriousStep, SharedState.notify_one] at hs
    obtain ⟨hs0, hs1⟩ := hs
    subst hs1
    simp_all [Sys.Live]

theorem live_run {T E : Type} (moved : T → T) (sched : List Action) :
    ∀ s : Sys T E, s.Inv → s.Live → (Sys.run moved sched s).Live := by
  induction sched with
  | nil => intro s _ hl; exact hl
  | cons a as ih =>
    intro s hi hl
    simp only [Sys.run]
    cases hs : s.step moved a with
    | none => simpa using ih s hi hl
    | some s1 =>
      simpa using ih s1 (inv_step moved a s s1 hi hs) (live_step moved a s s1 hi hl hs)

theorem mu_producerStep {T E : Type} (s s' : Sys T E) (hi : s.Inv)
    (hs : s.producerStep = some s') : s'.mu < s.mu := by
  obtain ⟨⟨fv, mtx, cv⟩, ⟨stage, todo⟩, cons⟩ := s
  cases todo with
  | nil => simp [Sys.producerStep] at hs
  | cons op rest =>
    cases stage <;> cases mtx <;> cases cons <;> cases fv <;>
      simp [Sys.producerStep, SharedState.lock, SharedState.assign, SharedState.notify_one,
        SharedState.unlock] at hs <;>
      subst hs <;>
      simp_all [Sys.Inv, Sys.mu, Sys.rank, Producer.remaining, Producer.holdsLock,
        Consumer.holdsLock, Consumer.completed] <;>
      (try cases rest <;> simp_all [Producer.remaining]) <;>
      (try split) <;> omega

theorem mu_consumerStep {T E : Type} (moved : T → T) (s s' : Sys T E)
    (hs : s.consumerStep moved = some s') : s'.mu < s.mu := by
  obtain ⟨⟨fv, mtx, cv⟩, ⟨stage, todo⟩, cons⟩ := s
  cases cons with
  | asleep =>
    cases mtx
    · simp [Sys.consumerStep, SharedState.lock] at hs
      obtain ⟨hs0, hs1⟩ := hs
      subst hs1
      cases fv <;> simp_all [Sys.mu, Sys.rank]
    · simp [Sys.consumerStep, SharedState.lock] at hs
  | done r => simp [Sys.consumerStep] at hs
  | _ =>
    cases mtx <;> cases fv <;>
      simp [Sys.consumerStep, SharedState.lock, SharedState.assign, SharedState.wait,
        SharedState.unlock] at hs <;>
      subst hs <;>
      simp_all [Sys.mu, Sys.rank]

theorem mu_step {T E : Type} (moved : T → T) (a : Action) (s s' : Sys T E) (hi : s.Inv)
    (ha : a ≠ .spurious) (hs : s.step moved a = some s') : s'.mu < s.mu := by
  cases a
  · exact mu_producerStep s s' hi hs
  · exact mu_consumerStep moved s s' hs
  · exact absurd rfl ha

theorem done_step {T E : Type} (moved : T → T) (a : Action) (s s' : Sys T E) (r : Except E T)
    (hd : s.cons = .done r) (hs : s.step moved a = some s') : s'.cons = .done r := by
  obtain ⟨⟨fv, mtx, cv⟩, ⟨stage, todo⟩, cons⟩ := s
  simp only at hd
  subst hd
  cases a with
  | producer =>
    cases todo with
    | nil => simp [Sys.step, Sys.producerStep] at hs
    | cons op rest =>
      cases stage <;> cases mtx <;>
        simp [Sys.step, Sys.producerStep, SharedState.lock] at hs <;>
        subst hs <;> rfl
  | consumer => simp [Sys.step, Sys.consumerStep] at hs
  | spurious => simp [Sys.step, Sys.spuriousStep] at hs

theorem done_run {T E : Type} (moved : T → T) (sched : List Action) (r : Except E T) :
    ∀ s : Sys T E, s.cons = .done r → (Sys.run moved sched s).cons = .done r := by
  induction sched with
  | nil => intro s hd; exact hd
  | cons a as ih =>
    intro s hd
    simp only [Sys.run]
    cases hs : s.step moved a with
    | none => simpa using ih s hd
    | some s1 => simpa using ih s1 (done_step moved a s s1 r hd hs)

theorem isDone_iff {T E : Type} (c : Consumer T E) :
    c.isDone = true ↔ ∃ r, c = .done r := by
  cases c <;> simp [Consumer.isDone]

theorem rank_zero {T E : Type} (s : Sys T E) (h : s.rank = 0) : s.cons.isDone = true := by
  obtain ⟨⟨fv, mtx, cv⟩, ⟨stage, todo⟩, cons⟩ := s
  cases cons <;> cases fv <;> simp [Sys.rank, Consumer.isDone] at h ⊢
  split at h <;> omega

/-- No deadlock: while the call of `get` is not over, the producer or the
consumer can move, with no need of a spurious wakeup. -/
theorem some_thread_can_move {T E : Type} (moved : T → T) (s : Sys T E) (hi : s.Inv)
    (hl : s.Live) (hd : s.cons.isDone = false) :
    s.producerStep ≠ none ∨ s.consumerStep moved ≠ none := by
  obtain ⟨⟨fv, mtx, cv⟩, ⟨stage, todo⟩, cons⟩ := s
  cases cons <;> cases mtx <;> cases fv <;> cases todo <;> cases stage <;>
    simp_all [Sys.Inv, Sys.Live, Sys.producerStep, Sys.consumerStep, SharedState.lock,
      Producer.holdsLock, Consumer.holdsLock, Consumer.completed, Consumer.isDone]

theorem run_append {T E : Type} (moved : T → T) (xs ys : List Action) :
    ∀ s : Sys T E, Sys.run moved (xs ++ ys) s = Sys.run moved ys (Sys.run moved xs s) := by
  induction xs with
  | nil => intro s; rfl
  | cons a as ih => intro s; simp only [List.cons_append, Sys.run]; exact ih _

theorem full_step {T E : Type} (moved : T → T) (a : Action) (s s' : Sys T E)
    (hfull : s.cell.FutureValue ≠ none) (hs : s.step moved a = some s') :
    s'.cell.FutureValue ≠ none := by
  obtain ⟨⟨fv, mtx, cv⟩, ⟨stage, todo⟩, cons⟩ := s
  cases a with
  | producer =>
    cases todo with
    | nil => simp [Sys.step, Sys.producerStep] at hs
    | cons op rest =>
      cases stage <;> cases mtx <;>
        simp [Sys.step, Sys.producerStep, SharedState.lock, SharedState.assign,
          SharedState.notify_one, SharedState.unlock] at hs <;>
        subst hs <;>
        simp_all
  | consumer =>
    cases cons with
    | asleep =>
      cases mtx
      · simp [Sys.step, Sys.consumerStep, SharedState.lock] at hs
        obtain ⟨hs0, hs1⟩ := hs
        subst hs1
        simpa using hfull
      · simp [Sys.step, Sys.consumerStep, SharedState.lock] at hs
    | done r => simp [Sys.step, Sys.consumerStep] at hs
    | _ =>
      cases mtx <;> cases fv <;>
        simp [Sys.step, Sys.consumerStep, SharedState.lock, SharedState.assign,
          SharedState.wait, SharedState.unlock] at hs <;>
        subst hs <;>
        simp_all
  | spurious =>
    cases cons <;> simp [Sys.step, Sys.spuriousStep, SharedState.notify_one] at hs
    obtain ⟨hs0, hs1⟩ := hs
    subst hs1
    simpa using hfull

theorem full_run {T E : Type} (moved : T → T) (sched : List Action) :
    ∀ s : Sys T E, s.cell.FutureValue ≠ none →
      (Sys.run moved sched s).cell.FutureValue ≠ none := by
  induction sched with
  | nil => intro s hs; exact hs
  | cons b bs ih =>
    intro s hs
    simp only [Sys.run]
    cases hb : s.step moved b with
    | none => simpa using ih s hs
    | some s1 => simpa using ih s1 (full_step moved b s s1 hs hb)

theorem mu_spuriousStep {T E : Type} (s s' : Sys T E)
    (hfull : s.cell.FutureValue ≠ none) (hs : s.spuriousStep = some s') : s'.mu ≤ s.mu := by
  obtain ⟨⟨fv, mtx, cv⟩, ⟨stage, todo⟩, cons⟩ := s
  cases cons <;> simp [Sys.spuriousStep, SharedState.notify_one] at hs
  obtain ⟨hs0, hs1⟩ := hs
  subst hs1
  cases fv with
  | none => simp at hfull
  | some x => simp [Sys.mu, Sys.rank]

/-- A spurious wakeup takes no move away: it happens only while the consumer
is blocked, and it leaves the producer where it is. -/
theorem spurious_keeps_enabled {T E : Type} (moved : T → T) (k : Action) (s s' : Sys T E)
    (hk : k ≠ .spurious) (hs : s.spuriousStep = some s') (hen : s.step moved k ≠ none) :
    s'.step moved k ≠ none := by
  obtain ⟨⟨fv, mtx, cv⟩, ⟨stage, todo⟩, cons⟩ := s
  cases cons <;> simp [Sys.spuriousStep, SharedState.notify_one] at hs
  obtain ⟨hs0, hs1⟩ := hs
  subst hs1
  cases k with
  | producer =>
    cases todo <;> cases stage <;> cases mtx <;>
      simp_all [Sys.step, Sys.producerStep, SharedState.lock]
  | consumer => simp [Sys.step, Sys.consumerStep, hs0] at hen
  | spurious => exact absurd rfl hk

theorem mu_run_le {T E : Type} (moved : T → T) (b : List Action) :
    ∀ s : Sys T E, s.Inv → (s.cell.FutureValue ≠ none ∨ Action.spurious ∉ b) →
      (Sys.run moved b s).mu ≤ s.mu := by
  induction b with
  | nil => intro s _ _; exact Nat.le_refl _
  | cons a as ih =>
    intro s hi hb
    simp only [Sys.run]
    cases hs : s.step moved a with
    | none =>
      have hb2 : s.cell.FutureValue ≠ none ∨ Action.spurious ∉ as :=
        hb.imp id (fun h hm => h (List.mem_cons_of_mem _ hm))
      simpa using ih s hi hb2
    | some s1 =>
      have hb2 : s1.cell.FutureValue ≠ none ∨ Action.spurious ∉ as :=
        hb.imp (fun h => full_step moved a s s1 h hs) (fun h hm => h (List.mem_cons_of_mem _ hm))
      have h1 := ih s1 (inv_step moved a s s1 hi hs) hb2
      simp only [Option.getD_some]
      by_cases ha : a = .spurious
      · subst ha
        have hfull : s.cell.FutureValue ≠ none := by
          rcases hb with h | h
          · exact h
          · exact absurd (List.mem_cons_self _ _) h
        have h2 := mu_spuriousStep s s1 hfull hs
        omega
      · have h2 := mu_step moved a s s1 hi ha hs
        omega

theorem mu_run_lt {T E : Type} (moved : T → T) (k : Action) (hk : k ≠ .spurious)
    (b : List Action) :
    ∀ s : Sys T E, s.Inv → (s.cell.FutureValue ≠ none ∨ Action.spurious ∉ b) → k ∈ b →
      s.step moved k ≠ none → (Sys.run moved b s).mu < s.mu := by
  induction b with
  | nil => intro s _ _ hm; simp at hm
  | cons a as ih =>
    intro s hi hb hm hen
    simp only [Sys.run]
    cases hs : s.step moved a with
    | none =>
      have hka : k ≠ a := fun h => hen (h ▸ hs)
      have hm2 : k ∈ as := by
        rcases List.mem_cons.mp hm with h | h
        · exact absurd h hka
        · exact h
      have hb2 : s.cell.FutureValue ≠ none ∨ Action.spurious ∉ as :=
        hb.imp id (fun h hm => h (List.mem_cons_of_mem _ hm))
      simpa using ih s hi hb2 hm2 hen
    | some s1 =>
      have hi1 := inv_step moved a s s1 hi hs
      have hb2 : s1.cell.FutureValue ≠ none ∨ Action.spurious ∉ as :=
        hb.imp (fun h => full_step moved a s s1 h hs) (fun h hm => h (List.mem_cons_of_mem _ hm))
      simp only [Option.getD_some]
      by_cases ha : a = .spurious
      · subst ha
        have hfull : s.cell.FutureValue ≠ none := by
          rcases hb with h | h
          · exact h
          · exact absurd (List.mem_cons_self _ _) h
        have hm2 : k ∈ as := by
          rcases List.mem_cons.mp hm with h | h
          · exact absurd h hk
          · exact h
        have h1 := ih s1 hi1 hb2 hm2 (spurious_keeps_enabled moved k s s1 hk hs hen)
        have h2 := mu_spuriousStep s s1 hfull hs
        omega
      · have h1 := mu_run_le moved as s1 hi1 hb2
        have h2 := mu_step moved a s s1 hi ha hs
        omega

/-- One fair round: when the producer and the consumer are both scheduled in a
round, and either the slot is already non-empty or the round has no spurious
wakeup, the call of `get` is over after it or the measure has dropped. -/
theorem round_progress {T E : Type} (moved : T → T) (b : List Action) (s : Sys T E)
    (hi : s.Inv) (hl : s.Live)
    (hb : Action.producer ∈ b ∧ Action.consumer ∈ b)
    (hsp : s.cell.FutureValue ≠ none ∨ Action.spurious ∉ b) :
    (Sys.run moved b s).cons.isDone = true ∨ (Sys.run moved b s).mu < s.mu := by
  cases hd : s.cons.isDone with
  | true =>
    obtain ⟨r, hr⟩ := (isDone_iff _).mp hd
    exact Or.inl ((isDone_iff _).mpr ⟨r, done_run moved b r s hr⟩)
  | false =>
    rcases some_thread_can_move moved s hi hl hd with h | h
    · exact Or.inr (mu_run_lt moved .producer (by simp) b s hi hsp hb.1 h)
    · exact Or.inr (mu_run_lt moved .consumer (by simp) b s hi hsp hb.2 h)

theorem rounds_progress {T E : Type} (moved : T → T) (rounds : List (List Action)) :
    ∀ s : Sys T E, s.Inv → s.Live →
      (∀ b ∈ rounds, Action.producer ∈ b ∧ Action.consumer ∈ b) →
      (s.cell.FutureValue ≠ none ∨ ∀ b ∈ rounds, Action.spurious ∉ b) →
      (Sys.run moved rounds.flatten s).cons.isDone = true ∨
        (Sys.run moved rounds.flatten s).mu + rounds.length ≤ s.mu := by
  induction rounds with
  | nil => intro s _ _ _ _; exact Or.inr (by simp [Sys.run])
  | cons b bs ih =>
    intro s hi hl hf hsp
    have hb := hf b (by simp)
    have hbs : ∀ c ∈ bs, Action.producer ∈ c ∧ Action.consumer ∈ c :=
      fun c hc => hf c (by simp [hc])
    have hsp1 : s.cell.FutureValue ≠ none ∨ Action.spurious ∉ b :=
      hsp.imp id (fun h => h b (by simp))
    have hsp2 : (Sys.run moved b s).cell.FutureValue ≠ none ∨ ∀ c ∈ bs, Action.spurious ∉ c :=
      hsp.imp (fun h => full_run moved b s h) (fun h c hc => h c (by simp [hc]))
    simp only [List.flatten_cons, run_append, List.length_cons]
    have hi1 := inv_run moved b s hi
    have hl1 := live_run moved b s hi hl
    rcases round_progress moved b s hi hl hb hsp1 with h | h
    · obtain ⟨r, hr⟩ := (isDone_iff _).mp h
      exact Or.inl ((isDone_iff _).mpr ⟨r, done_run moved bs.flatten r _ hr⟩)
    · rcases ih _ hi1 hl1 hbs hsp2 with h2 | h2
      · exact Or.inl h2
      · exact Or.inr (by omega)

theorem todo_step {T E : Type} (moved : T → T) (a : Action) (s s' : Sys T E)
    (hs : s.step moved a = some s') : s'.prod.todo.length ≤ s.prod.todo.length := by
  obtain ⟨⟨fv, mtx, cv⟩, ⟨stage, todo⟩, cons⟩ := s
  cases a with
  | producer =>
    cases todo with
    | nil => simp [Sys.step, Sys.producerStep] at hs
    | cons op rest =>
      cases stage <;> cases mtx <;>
        simp [Sys.step, Sys.producerStep, SharedState.lock] at hs <;>
        subst hs <;> simp
  | consumer =>
    cases cons with
    | asleep =>
      cases mtx
      · simp [Sys.step, Sys.consumerStep, SharedState.lock] at hs
        obtain ⟨hs0, hs1⟩ := hs
        subst hs1
        simp
      · simp [Sys.step, Sys.consumerStep, SharedState.lock] at hs
    | done r => simp [Sys.step, Sys.consumerStep] at hs
    | _ =>
      cases mtx <;> cases fv <;>
        simp [Sys.step, Sys.consumerStep, SharedState.lock] at hs <;>
        subst hs <;> simp
  | spurious =>
    cases cons <;> simp [Sys.step, Sys.spuriousStep] at hs
    obtain ⟨hs0, hs1⟩ := hs
    subst hs1
    simp

theorem todo_run {T E : Type} (moved : T → T) (sched : List Action) :
    ∀ s : Sys T E, (Sys.run moved sched s).prod.todo.length ≤ s.prod.todo.length := by
  induction sched with
  | nil => intro s; exact Nat.le_refl _
  | cons a as ih =>
    intro s
    simp only [Sys.run]
    cases hs : s.step moved a with
    | none => simpa using ih s
    | some s1 =>
      have h1 := ih s1
      have h2 := todo_step moved a s s1 hs
      simp only [Option.getD_some]
      omega

theorem mu_le {T E : Type} (s : Sys T E) : s.mu ≤ 4 * s.prod.todo.length + 6 := by
  obtain ⟨⟨fv, mtx, cv⟩, ⟨stage, todo⟩, cons⟩ := s
  cases cons <;> cases fv <;> cases todo <;> cases stage <;>
    simp [Sys.mu, Sys.rank, Producer.remaining] <;>
    (try split) <;> omega

theorem from_start {T E : Type} (ops : List (Op T E)) : (Sys.start ops).From ops := by
  simp [Sys.From, Sys.start, SharedState.fresh]

theorem from_step {T E : Type} (moved : T → T) (ops : List (Op T E)) (a : Action)
    (s s' : Sys T E) (hf : s.From ops) (hs : s.step moved a = some s') : s'.From ops := by
  obtain ⟨⟨fv, mtx, cv⟩, ⟨stage, todo⟩, cons⟩ := s
  cases a with
  | producer =>
    cases todo with
    | nil => simp [Sys.step, Sys.producerStep] at hs
    | cons op rest =>
      cases stage <;> cases mtx <;>
        simp [Sys.step, Sys.producerStep, SharedState.lock, SharedState.assign,
          SharedState.notify_one, SharedState.unlock] at hs <;>
        subst hs <;>
        simp_all [Sys.From]
      all_goals
        intro _
        exact ⟨op, hf.1.1, rfl⟩
  | consumer =>
    cases cons with
    | asleep =>
      cases mtx
      · simp [Sys.step, Sys.consumerStep, SharedState.lock] at hs
        obtain ⟨hs0, hs1⟩ := hs
        subst hs1
        simp_all [Sys.From, Consumer.completed]
      · simp [Sys.step, Sys.consumerStep, SharedState.lock] at hs
    | done r => simp [Sys.step, Sys.consumerStep] at hs
    | test =>
      cases fv with
      | none =>
        simp [Sys.step, Sys.consumerStep, SharedState.wait] at hs
        subst hs
        simp_all [Sys.From, Consumer.completed]
      | some x =>
        simp [Sys.step, Sys.consumerStep, SharedState.assign] at hs
        subst hs
        obtain ⟨op, hop, hx⟩ := hf.2.1 rfl x rfl
        refine ⟨hf.1, by simp [Consumer.completed], ?_⟩
        intro r hr
        simp at hr
        exact ⟨op, hop, by rw [← hr, hx, visit_stored]⟩
    | _ =>
      cases mtx <;>
        simp [Sys.step, Sys.consumerStep, SharedState.lock, SharedState.unlock,
          SharedState.wait] at hs <;>
        subst hs <;>
        simp_all [Sys.From, Consumer.completed]
  | spurious =>
    cases cons <;> simp [Sys.step, Sys.spuriousStep, SharedState.notify_one] at hs
    obtain ⟨hs0, hs1⟩ := hs
    subst hs1
    simp_all [Sys.From, Consumer.completed]

theorem from_run {T E : Type} (moved : T → T) (ops : List (Op T E)) (sched : List Action) :
    ∀ s : Sys T E, s.From ops → (Sys.run moved sched s).From ops := by
  induction sched with
  | nil => intro s hf; exact hf
  | cons a as ih =>
    intro s hf
    simp only [Sys.run]
    cases hs : s.step moved a with
    | none => simpa using ih s hf
    | some s1 => simpa using ih s1 (from_step moved ops a s s1 hf hs)

/-- Once the producer has made all its calls, three steps of the consumer
bring the call of `get` to its end, wherever the consumer stood. -/
theorem consumer_finishes {T E : Type} (moved : T → T) (s : Sys T E) (hi : s.Inv)
    (hl : s.Live) (hp : s.prod.todo = []) :
    (Sys.run moved [.consumer, .consumer, .consumer] s).cons.isDone = true := by
  obtain ⟨⟨fv, mtx, cv⟩, ⟨stage, todo⟩, cons⟩ := s
  simp only at hp
  subst hp
  cases cons <;> cases mtx <;> cases fv <;>
    simp_all [Sys.Inv, Sys.Live, Sys.run, Sys.step, Sys.consumerStep, SharedState.lock,
      SharedState.assign, SharedState.unlock, Producer.holdsLock, Consumer.holdsLock,
      Consumer.completed, Consumer.isDone]

/-- The step-by-step `get` and the `get` run to completion agree: from a cell
with a free mutex and a non-empty slot, three steps of the consumer end the
call with the result and the cell that `SharedState.get` computes. -/
theorem get_run_agrees {T E : Type} (moved : T → T) (c : SharedState T E)
    (pr : Producer T E) (x : Variant T E) (hfree : c.mtx = false)
    (hx : c.FutureValue = some x) :
    (c.get moved).1 = .completed (visit moved x).1 ∧
    Sys.run moved [.consumer, .consumer, .consumer] { cell := c, prod := pr, cons := .entry } =
      { cell := (c.get moved).2, prod := pr, cons := .done (visit moved x).1 } := by
  obtain ⟨fv, mtx, cv⟩ := c
  simp only at hfree hx
  subst hfree hx
  simp [SharedState.get, Sys.run, Sys.step, Sys.consumerStep, SharedState.lock,
    SharedState.assign, SharedState.unlock]

/-! ## The two threads: the claims -/

/-- C7, no missed wakeup: take any non-empty list of fulfilling calls for the
producer and any interleaving `sched` of the two threads, spurious wakeups
included. In the state reached: while the consumer stands between its test of
the predicate and its call of `wait`, the slot is still empty and the producer
is outside its critical section, so no assignment and no `notify_one` falls
between the check and the sleep; a consumer asleep in front of a non-empty
slot has been notified, or the producer holds the mutex and is about to
notify. If the producer has made all its calls, three steps of the consumer
end the call of `get`. And whatever follows in which both threads keep being
scheduled (`4 * ops.length + 6` rounds, each naming both) ends the call of
`get` with the outcome of one of the calls of the producer: with spurious
wakeups anywhere once the slot is non-empty, and before that with no need of
a spurious wakeup. -/
theorem no_missed_wakeup {T E : Type} (moved : T → T) (ops : List (Op T E))
    (sched : List Action) (rounds : List (List Action)) (hne : ops ≠ [])
    (hfair : ∀ b ∈ rounds, Action.producer ∈ b ∧ Action.consumer ∈ b)
    (hlen : 4 * ops.length + 6 ≤ rounds.length) :
    let s := Sys.run moved sched (Sys.start ops)
    (s.cons = .wait → s.cell.FutureValue = none ∧ s.prod.holdsLock = false) ∧
    (s.cons = .asleep → s.cell.FutureValue ≠ none →
      s.cell.cv = 0 ∨ (s.prod.holdsLock = true ∧ s.prod.stage = .notify)) ∧
    (s.prod.todo = [] →
      ∃ op ∈ ops, (Sys.run moved [.consumer, .consumer, .consumer] s).cons = .done op.outcome) ∧
    ((s.cell.FutureValue ≠ none ∨ ∀ b ∈ rounds, Action.spurious ∉ b) →
      ∃ op ∈ ops, (Sys.run moved rounds.flatten s).cons = .done op.outcome) := by
  intro s
  have hi : s.Inv := inv_run moved sched _ (inv_start ops)
  have hl : s.Live := live_run moved sched _ (inv_start ops) (live_start ops hne)
  have hf : s.From ops := from_run moved ops sched _ (from_start ops)
  refine ⟨?_, ?_, ?_, ?_⟩
  · intro hw
    refine ⟨hi.2.2.2.2.2.2.2 hw, ?_⟩
    have hno := hi.2.1
    rw [hw] at hno
    cases hp : s.prod.holdsLock with
    | false => rfl
    | true => exact absurd ⟨hp, rfl⟩ hno
  · intro _ hfull
    by_cases hcv : s.cell.cv = 0
    · exact Or.inl hcv
    · exact Or.inr (hi.2.2.2.2.1 hcv hfull)
  · intro hp
    obtain ⟨r, hr⟩ := (isDone_iff _).mp (consumer_finishes moved s hi hl hp)
    obtain ⟨op, hop, hro⟩ := (from_run moved ops _ s hf).2.2 r (Or.inr hr)
    exact ⟨op, hop, by rw [hr, hro]⟩
  · intro hsp
    have hdone : (Sys.run moved rounds.flatten s).cons.isDone = true := by
      rcases rounds_progress moved rounds s hi hl hfair hsp with h | h
      · exact h
      · have h1 := mu_le s
        have h2 : s.prod.todo.length ≤ ops.length := todo_run moved sched (Sys.start ops)
        have h3 : (Sys.run moved rounds.flatten s).mu = 0 := by omega
        exact rank_zero _ (by unfold Sys.mu at h3; omega)
    obtain ⟨r, hr⟩ := (isDone_iff _).mp hdone
    obtain ⟨op, hop, hro⟩ := (from_run moved ops _ s hf).2.2 r (Or.inr hr)
    exact ⟨op, hop, by rw [hr, hro]⟩

/-- C7 at scenario A, the producer arriving between the check and the sleep:
the consumer locks and finds the slot empty; the producer, scheduled now,
cannot enter `set_value(42)`; the consumer falls asleep and only then does the
producer get the mutex. Ten rounds later `get` has returned 42. -/
theorem no_missed_wakeup_witness :
    ((Sys.run id [.consumer, .consumer, .producer]
      (Sys.start [(.set_value 42 : Op Nat String)])).cons = .wait ∧
     (Sys.run id [.consumer, .consumer, .producer]
      (Sys.start [(.set_value 42 : Op Nat String)])).prod.stage = .entry) ∧
    ((Sys.run id [.consumer, .consumer, .producer, .consumer, .producer]
      (Sys.start [(.set_value 42 : Op Nat String)])).cons = .asleep ∧
     (Sys.run id [.consumer, .consumer, .producer, .consumer, .producer]
      (Sys.start [(.set_value 42 : Op Nat String)])).prod.stage = .assign) ∧
    ∃ op ∈ [(.set_value 42 : Op Nat String)],
      (Sys.run id (List.replicate 10 [Action.producer, Action.consumer]).flatten
        (Sys.run id [.consumer, .consumer, .producer, .consumer, .producer]
          (Sys.start [(.set_value 42 : Op Nat String)]))).cons = .done op.outcome :=
  ⟨⟨rfl, rfl⟩, ⟨rfl, rfl⟩,
    (no_missed_wakeup id [(.set_value 42 : Op Nat String)]
      [.consumer, .consumer, .producer, .consumer, .producer]
      (List.replicate 10 [Action.producer, Action.consumer]) (by simp)
      (by intro b hb; rw [List.eq_of_mem_replicate hb]; simp) (by simp)).2.2.2
      (Or.inr (by intro b hb; rw [List.eq_of_mem_replicate hb]; simp))⟩

/-! ## Blocking, terminal state, lock discipline -/

theorem completing_step {T E : Type} (moved : T → T) (s s' : Sys T E)
    (hc : s.cons.completed = false) (hs : s.consumerStep moved = some s')
    (hc' : s'.cons.completed = true) :
    s.cons = .test ∧
      ∃ x, s.cell.FutureValue = some x ∧ s'.cons = .leaving (visit moved x).1 := by
  obtain ⟨⟨fv, mtx, cv⟩, ⟨stage, todo⟩, cons⟩ := s
  cases cons with
  | asleep =>
    cases mtx
    · simp [Sys.consumerStep, SharedState.lock] at hs
      obtain ⟨hs0, hs1⟩ := hs
      subst hs1
      simp [Consumer.completed] at hc'
    · simp [Sys.consumerStep, SharedState.lock] at hs
  | done r => simp [Sys.consumerStep] at hs
  | leaving r => simp [Consumer.completed] at hc
  | entry =>
    cases mtx <;> simp [Sys.consumerStep, SharedState.lock] at hs
    subst hs
    simp [Consumer.completed] at hc'
  | wait =>
    simp [Sys.consumerStep] at hs
    subst hs
    simp [Consumer.completed] at hc'
  | test =>
    cases fv with
    | none =>
      simp [Sys.consumerStep] at hs
      subst hs
      simp [Consumer.completed] at hc'
    | some x =>
      simp [Sys.consumerStep, SharedState.assign] at hs
      subst hs
      simp

theorem empty_step {T E : Type} (moved : T → T) (a : Action) (s s' : Sys T E)
    (he : s.cell.FutureValue = none) (hc : s.cons.completed = false)
    (hs : s.step moved a = some s') :
    s'.cons.completed = false ∧
      (s'.cell.FutureValue ≠ none → a = .producer ∧ s.prod.stage = .assign) := by
  obtain ⟨⟨fv, mtx, cv⟩, ⟨stage, todo⟩, cons⟩ := s
  simp only at he
  subst he
  cases a with
  | producer =>
    cases todo with
    | nil => simp [Sys.step, Sys.producerStep] at hs
    | cons op rest =>
      cases stage <;> cases mtx <;>
        simp [Sys.step, Sys.producerStep, SharedState.lock, SharedState.assign,
          SharedState.notify_one, SharedState.unlock] at hs <;>
        subst hs <;>
        simp_all
  | consumer =>
    cases cons with
    | asleep =>
      cases mtx
      · simp [Sys.step, Sys.consumerStep, SharedState.lock] at hs
        obtain ⟨hs0, hs1⟩ := hs
        subst hs1
        simp [Consumer.completed]
      · simp [Sys.step, Sys.consumerStep, SharedState.lock] at hs
    | done r => simp [Consumer.completed] at hc
    | leaving r => simp [Consumer.completed] at hc
    | entry =>
      cases mtx <;> simp [Sys.step, Sys.consumerStep, SharedState.lock] at hs
      subst hs
      simp [Consumer.completed]
    | test =>
      simp [Sys.step, Sys.consumerStep] at hs
      subst hs
      simp [Consumer.completed]
    | wait =>
      simp [Sys.step, Sys.consumerStep, SharedState.wait] at hs
      subst hs
      simp [Consumer.completed]
  | spurious =>
    cases cons <;> simp [Sys.step, Sys.spuriousStep, SharedState.notify_one] at hs
    obtain ⟨hs0, hs1⟩ := hs
    subst hs1
    simp [Consumer.completed]

theorem dropped_run {T E : Type} (moved : T → T) (sched : List Action) :
    ∀ s : Sys T E, s.prod.todo = [] → s.cell.FutureValue = none → s.cons.completed = false →
      (Sys.run moved sched s).prod.todo = [] ∧
      (Sys.run moved sched s).cell.FutureValue = none ∧
      (Sys.run moved sched s).cons.completed = false := by
  induction sched with
  | nil => intro s h1 h2 h3; exact ⟨h1, h2, h3⟩
  | cons a as ih =>
    intro s h1 h2 h3
    simp only [Sys.run]
    cases hs : s.step moved a with
    | none => simpa using ih s h1 h2 h3
    | some s1 =>
      have h4 := empty_step moved a s s1 h2 h3 hs
      have h5 : s1.prod.todo = [] := by
        have := todo_step moved a s s1 hs
        rw [h1] at this
        exact List.length_eq_zero.mp (Nat.le_zero.mp this)
      have h6 : s1.cell.FutureValue = none := by
        by_contra hne
        obtain ⟨ha, _⟩ := h4.2 hne
        subst ha
        simp [Sys.step, Sys.producerStep, h1] at hs
      simpa using ih s1 h5 h6 h4.1

/-- C5, blocking correctness on the step relation. A step of the consumer that
gives `get` its result is the visit made at the predicate test, under the
mutex, with a non-empty slot. While the slot is empty no step of any thread
completes `get`, and the slot is filled only by the assignment of a producer
inside `set_value` / `set_exception`; so with a producer that makes no call
(the promise is dropped unfulfilled) `get` completes under no schedule, and
run alone on an empty slot it stays blocked. In every reachable state a `get`
that has its result faces a non-empty slot. And when the slot is non-empty and
the mutex free at the call, the first three steps of the consumer lock, visit
and unlock: the call is over without ever waiting. -/
theorem blocking_correctness {T E : Type} (moved : T → T) :
    (∀ s s' : Sys T E, s.cons.completed = false → s.consumerStep moved = some s' →
      s'.cons.completed = true →
        s.cell.FutureValue ≠ none ∧ s.cons = .test) ∧
    (∀ (a : Action) (s s' : Sys T E), s.cell.FutureValue = none → s.cons.completed = false →
      s.step moved a = some s' →
        s'.cons.completed = false ∧
        (s'.cell.FutureValue ≠ none → a = .producer ∧ s.prod.stage = .assign)) ∧
    (∀ sched : List Action,
      (Sys.run moved sched (Sys.start ([] : List (Op T E)))).cons.completed = false ∧
      (Sys.run moved sched (Sys.start ([] : List (Op T E)))).cell.FutureValue = none) ∧
    (∀ c : SharedState T E, c.FutureValue = none → (c.get moved).1 = .blocked) ∧
    (∀ (ops : List (Op T E)) (sched : List Action),
      (Sys.run moved sched (Sys.start ops)).cons.completed = true →
        (Sys.run moved sched (Sys.start ops)).cell.FutureValue ≠ none) ∧
    (∀ (c : SharedState T E) (pr : Producer T E) (x : Variant T E),
      c.mtx = false → c.FutureValue = some x →
        (Sys.run moved [.consumer] { cell := c, prod := pr, cons := .entry }).cons = .test ∧
        (Sys.run moved [.consumer, .consumer] { cell := c, prod := pr, cons := .entry }).cons
          = .leaving (visit moved x).1 ∧
        (Sys.run moved [.consumer, .consumer, .consumer]
          { cell := c, prod := pr, cons := .entry }).cons = .done (visit moved x).1 ∧
        (c.get moved).1 = .completed (visit moved x).1) := by
  refine ⟨?_, empty_step moved, ?_, ?_, ?_, ?_⟩
  · intro s s' hc hs hc'
    obtain ⟨h1, x, hx, _⟩ := completing_step moved s s' hc hs hc'
    exact ⟨by rw [hx]; simp, h1⟩
  · intro sched
    exact (dropped_run moved sched (Sys.start []) rfl rfl rfl).2.symm
  · intro c hc
    obtain ⟨fv, mtx, cv⟩ := c
    simp only at hc
    subst hc
    cases mtx <;> simp [SharedState.get, SharedState.lock]
  · intro ops sched
    exact (inv_run moved sched _ (inv_start ops)).2.2.2.2.2.2.1
  · intro c pr x hfree hx
    obtain ⟨g1, g2⟩ := get_run_agrees moved c pr x hfree hx
    refine ⟨?_, ?_, by rw [g2], g1⟩
    · simp [Sys.run, Sys.step, Sys.consumerStep, lock_free c hfree]
    · simp [Sys.run, Sys.step, Sys.consumerStep, lock_free c hfree, hx, SharedState.assign]

/-- C5 at concrete runs: with a producer that makes no call, a consumer that
locks, tests, falls asleep, is woken spuriously, tests again and falls asleep
again has not completed; on a cell that holds 42 with a free mutex `get` returns 42. -/
theorem blocking_correctness_witness :
    ((Sys.run id [.consumer, .consumer, .consumer, .spurious, .consumer, .consumer, .consumer]
      (Sys.start ([] : List (Op Nat String)))).cons.completed = false ∧
     (Sys.run id [.consumer, .consumer, .consumer, .spurious, .consumer, .consumer, .consumer]
      (Sys.start ([] : List (Op Nat String)))).cell.FutureValue = none) ∧
    ((Sys.run id [.consumer, .consumer, .consumer]
      { cell := { FutureValue := some (.ptr 42), mtx := false, cv := 0 },
        prod := { stage := .entry, todo := ([] : List (Op Nat String)) },
        cons := .entry }).cons = .done (visit id (Variant.ptr 42 : Variant Nat String)).1 ∧
     (SharedState.get id
      ({ FutureValue := some (.ptr 42), mtx := false, cv := 0 } : SharedState Nat String)).1
        = .completed (visit id (Variant.ptr 42 : Variant Nat String)).1) :=
  ⟨(@blocking_correctness Nat String id).2.2.1
      [.consumer, .consumer, .consumer, .spurious, .consumer, .consumer, .consumer],
    ((@blocking_correctness Nat String id).2.2.2.2.2
      { FutureValue := some (.ptr 42), mtx := false, cv := 0 }
      { stage := .entry, todo := [] } (.ptr 42) rfl rfl).2.2⟩

theorem full_body {T E : Type} (moved : T → T) (c : SharedState T E) (v : T) (e : E)
    (hfull : c.FutureValue ≠ none) :
    (c.set_value v).2.FutureValue ≠ none ∧ (c.set_exception e).2.FutureValue ≠ none ∧
    (c.get moved).2.FutureValue ≠ none := by
  obtain ⟨fv, mtx, cv⟩ := c
  cases mtx <;> cases fv <;>
    simp_all [SharedState.set_value, SharedState.set_exception, SharedState.get,
      SharedState.lock, SharedState.assign, SharedState.notify_one, SharedState.unlock]

/-- C8, fulfilled is terminal: when the slot of the cell at address `a` is
non-empty, it is still non-empty after `set_value`, `set_exception`,
`get_future` and `get` made through any promise or future (on this cell or on
another one; `get` returning or raising); and no step of the producer or the
consumer, and no spurious wakeup, takes a non-empty slot back to empty, along
any schedule. -/
theorem fulfilled_is_terminal {T E : Type} (moved : T → T) (h : Heap T E) (p : MyPromise)
    (f : MyFuture) (a : Nat) (v : T) (e : E)
    (hfull : (h.cells a).FutureValue ≠ none) :
    ((p.set_value v h).2.cells a).FutureValue ≠ none ∧
    ((p.set_exception e h).2.cells a).FutureValue ≠ none ∧
    ((p.get_future h).2.cells a).FutureValue ≠ none ∧
    ((MyFuture.get moved f h).2.cells a).FutureValue ≠ none ∧
    (∀ (act : Action) (pr : Producer T E) (co : Consumer T E) (s' : Sys T E),
      Sys.step moved act { cell := h.cells a, prod := pr, cons := co } = some s' →
        s'.cell.FutureValue ≠ none) ∧
    (∀ (sched : List Action) (pr : Producer T E) (co : Consumer T E),
      (Sys.run moved sched { cell := h.cells a, prod := pr, cons := co }).cell.FutureValue
        ≠ none) := by
  refine ⟨?_, ?_, hfull, ?_, ?_, ?_⟩
  · by_cases hpa : a = p.sharedState
    · subst hpa
      simpa [MyPromise.set_value, Heap.on] using (full_body moved _ v e hfull).1
    · simpa [MyPromise.set_value, Heap.on, Function.update_noteq hpa] using hfull
  · by_cases hpa : a = p.sharedState
    · subst hpa
      simpa [MyPromise.set_exception, Heap.on] using (full_body moved _ v e hfull).2.1
    · simpa [MyPromise.set_exception, Heap.on, Function.update_noteq hpa] using hfull
  · by_cases hfa : a = f.sharedState
    · subst hfa
      simpa [MyFuture.get, Heap.on] using (full_body moved _ v e hfull).2.2
    · simpa [MyFuture.get, Heap.on, Function.update_noteq hfa] using hfull
  · intro act pr co s' hs
    exact full_step moved act _ s' hfull hs
  · intro sched pr co
    exact full_run moved sched _ hfull

/-- C8 at the cell of scenario C after `set_value(1)`: a second `set_value`, a
`set_exception`, `get_future` and `get` all leave the slot non-empty. -/
theorem fulfilled_is_terminal_witness :
    (scenarioC_first.2.cells 0).FutureValue ≠ none ∧
    ((scenarioC_promise.1.set_value 2 scenarioC_first.2).2.cells 0).FutureValue ≠ none ∧
    ((scenarioC_promise.1.set_exception "boom" scenarioC_first.2).2.cells 0).FutureValue
      ≠ none ∧
    ((MyFuture.get id (scenarioC_promise.1.get_future scenarioC_first.2).1
      scenarioC_first.2).2.cells 0).FutureValue ≠ none :=
  ⟨by decide,
    (fulfilled_is_terminal id scenarioC_first.2 scenarioC_promise.1
      (scenarioC_promise.1.get_future scenarioC_first.2).1 0 2 "boom" (by decide)).1,
    (fulfilled_is_terminal id scenarioC_first.2 scenarioC_promise.1
      (scenarioC_promise.1.get_future scenarioC_first.2).1 0 2 "boom" (by decide)).2.1,
    (fulfilled_is_terminal id scenarioC_first.2 scenarioC_promise.1
      (scenarioC_promise.1.get_future scenarioC_first.2).1 0 2 "boom" (by decide)).2.2.2.1⟩

theorem slot_step {T E : Type} (moved : T → T) (a : Action) (s s' : Sys T E) (hi : s.Inv)
    (hs : s.step moved a = some s') (hch : s'.cell.FutureValue ≠ s.cell.FutureValue) :
    s.cell.mtx = true := by
  obtain ⟨⟨fv, mtx, cv⟩, ⟨stage, todo⟩, cons⟩ := s
  cases a with
  | producer =>
    cases todo with
    | nil => simp [Sys.step, Sys.producerStep] at hs
    | cons op rest =>
      cases stage <;> cases mtx <;>
        simp [Sys.step, Sys.producerStep, SharedState.lock, SharedState.assign,
          SharedState.notify_one, SharedState.unlock] at hs <;>
        subst hs <;>
        simp_all [Sys.Inv, Producer.holdsLock]
  | consumer =>
    cases cons with
    | asleep =>
      cases mtx
      · simp [Sys.step, Sys.consumerStep, SharedState.lock] at hs
        obtain ⟨hs0, hs1⟩ := hs
        subst hs1
        simp at hch
      · rfl
    | done r => simp [Sys.step, Sys.consumerStep] at hs
    | _ =>
      cases mtx <;> cases fv <;>
        simp [Sys.step, Sys.consumerStep, SharedState.lock, SharedState.assign,
          SharedState.wait, SharedState.unlock] at hs <;>
        subst hs <;>
        simp_all [Sys.Inv, Consumer.holdsLock]
  | spurious =>
    cases cons <;> simp [Sys.step, Sys.spuriousStep, SharedState.notify_one] at hs
    obtain ⟨hs0, hs1⟩ := hs
    subst hs1
    simp at hch

/-- C9, lock discipline, with the mutex as the held/free field `mtx`.
Run to completion on a free mutex, `set_value`, `set_exception` and `get` end
with the mutex free, on the path where `get` returns, on the path where it
raises the stored failure, and when it goes to sleep. On a held mutex none of
them does anything: they begin by acquiring. Step by step, the first step of a
call takes the mutex from free to held and the last one (`leave` for the
producer, `leaving` for the consumer, with a value or with a failure) frees
it. In every state two interleaved threads can reach, the mutex is held
exactly when one of them, and never both, is inside its critical section, so
it is free whenever both are between operations, and the slot changes only in
steps taken while the mutex is held. -/
theorem lock_discipline {T E : Type} (moved : T → T) :
    (∀ (c : SharedState T E) (v : T) (e : E), c.mtx = false →
      (c.set_value v).2.mtx = false ∧ (c.set_exception e).2.mtx = false ∧
      (c.get moved).2.mtx = false) ∧
    (∀ (c : SharedState T E) (e : E), c.mtx = false → c.FutureValue = some (.exc e) →
      (c.get moved).1 = .completed (.error e) ∧ (c.get moved).2.mtx = false) ∧
    (∀ (c : SharedState T E) (v : T) (e : E), c.mtx = true →
      c.set_value v = (.blocked, c) ∧ c.set_exception e = (.blocked, c) ∧
      c.get moved = (.blocked, c)) ∧
    (∀ s s' : Sys T E, s.prod.stage = .entry → s.producerStep = some s' →
      s.cell.mtx = false ∧ s'.cell.mtx = true ∧ s'.prod.stage = .assign) ∧
    (∀ s s' : Sys T E, s.prod.stage = .leave → s.producerStep = some s' →
      s'.cell.mtx = false ∧ s'.prod.stage = .entry) ∧
    (∀ s s' : Sys T E, s.cons = .entry → s.consumerStep moved = some s' →
      s.cell.mtx = false ∧ s'.cell.mtx = true ∧ s'.cons = .test) ∧
    (∀ (s s' : Sys T E) (r : Except E T), s.cons = .leaving r →
      s.consumerStep moved = some s' → s'.cell.mtx = false ∧ s'.cons = .done r) ∧
    (∀ (ops : List (Op T E)) (sched : List Action),
      (Sys.run moved sched (Sys.start ops)).cell.mtx =
        ((Sys.run moved sched (Sys.start ops)).prod.holdsLock ||
          (Sys.run moved sched (Sys.start ops)).cons.holdsLock) ∧
      ¬ ((Sys.run moved sched (Sys.start ops)).prod.holdsLock = true ∧
          (Sys.run moved sched (Sys.start ops)).cons.holdsLock = true) ∧
      ((Sys.run moved sched (Sys.start ops)).prod.holdsLock = false →
        (Sys.run moved sched (Sys.start ops)).cons.holdsLock = false →
        (Sys.run moved sched (Sys.start ops)).cell.mtx = false) ∧
      ∀ (a : Action) (s' : Sys T E),
        (Sys.run moved sched (Sys.start ops)).step moved a = some s' →
        s'.cell.FutureValue ≠ (Sys.run moved sched (Sys.start ops)).cell.FutureValue →
        (Sys.run moved sched (Sys.start ops)).cell.mtx = true) := by
  refine ⟨?_, ?_, ?_, ?_, ?_, ?_, ?_, ?_⟩
  · intro c v e hfree
    obtain ⟨fv, mtx, cv⟩ := c
    simp only at hfree
    subst hfree
    cases fv <;>
      simp [SharedState.set_value, SharedState.set_exception, SharedState.get,
        SharedState.lock, SharedState.assign, SharedState.notify_one, SharedState.unlock,
        SharedState.wait]
  · intro c e hfree hx
    rw [get_free_some moved c (.exc e) hfree hx]
    exact ⟨rfl, rfl⟩
  · intro c v e hheld
    simp [SharedState.set_value, SharedState.set_exception, SharedState.get,
      lock_held c hheld]
  · intro s s' hst hs
    obtain ⟨⟨fv, mtx, cv⟩, ⟨stage, todo⟩, cons⟩ := s
    simp only at hst
    subst hst
    cases todo with
    | nil => simp [Sys.producerStep] at hs
    | cons op rest =>
      cases mtx <;> simp [Sys.producerStep, SharedState.lock] at hs
      subst hs
      simp
  · intro s s' hst hs
    obtain ⟨⟨fv, mtx, cv⟩, ⟨stage, todo⟩, cons⟩ := s
    simp only at hst
    subst hst
    cases todo with
    | nil => simp [Sys.producerStep] at hs
    | cons op rest =>
      simp [Sys.producerStep, SharedState.unlock] at hs
      subst hs
      simp
  · intro s s' hco hs
    obtain ⟨⟨fv, mtx, cv⟩, ⟨stage, todo⟩, cons⟩ := s
    simp only at hco
    subst hco
    cases mtx <;> simp [Sys.consumerStep, SharedState.lock] at hs
    subst hs
    simp
  · intro s s' r hco hs
    obtain ⟨⟨fv, mtx, cv⟩, ⟨stage, todo⟩, cons⟩ := s
    simp only at hco
    subst hco
    simp [Sys.consumerStep, SharedState.unlock] at hs
    subst hs
    simp
  · intro ops sched
    have hi := inv_run moved sched _ (inv_start ops)
    refine ⟨hi.1, hi.2.1, ?_, ?_⟩
    · intro h1 h2
      rw [hi.1, h1, h2]
      rfl
    · intro a s' hs hch
      exact slot_step moved a _ s' hi hs hch

/-- C9 at scenario B: on a cell that holds the failure "boom" with a free
mutex, `get` raises "boom" and leaves the mutex free; with the mutex held it
does nothing. -/
theorem lock_discipline_witness :
    ((SharedState.get id
      ({ FutureValue := some (.exc "boom"), mtx := false, cv := 0 } : SharedState Nat String)).1
        = .completed (.error "boom") ∧
     (SharedState.get id
      ({ FutureValue := some (.exc "boom"), mtx := false, cv := 0 } : SharedState Nat String)).2.mtx
        = false) ∧
    SharedState.get id
      ({ FutureValue := some (.exc "boom"), mtx := true, cv := 0 } : SharedState Nat String)
        = (.blocked, { FutureValue := some (.exc "boom"), mtx := true, cv := 0 }) :=
  ⟨(@lock_discipline Nat String id).2.1
      { FutureValue := some (.exc "boom"), mtx := false, cv := 0 } "boom" rfl rfl,
    ((@lock_discipline Nat String id).2.2.1
      { FutureValue := some (.exc "boom"), mtx := true, cv := 0 } 0 "boom" rfl).2.2⟩

end mpcs
